import Mathlib

/-!
Verification of the terrain-server core (src/terrain-server/src/main.rs).

Shallow embedding notes:
* `f32` coordinate values are modelled by their 32-bit patterns (`F32.bits`).
  The server only stores, copies and serializes coordinates; it never performs
  floating-point arithmetic or comparison on them, so bit-pattern identity is a
  faithful model of every operation the code performs.
* `usize` lengths are modelled by `Nat`: the registry length is bounded by the
  number of create requests served, far below `2 ^ 64`, so wrap-around is
  unreachable and is not modelled.
* The registry `Arc<RwLock<Vec<Player>>>` is modelled by a `List Player`;
  mutations run under the exclusive write lock and are therefore serialized,
  which justifies modelling an execution as a sequence of atomic mutations.
* The broadcast channel `tx : broadcast::Sender<PlayerUpdate>` is modelled by
  an append-only event log (`SrvState.log`).  Every handler calls `tx.send`
  while still holding the registry write lock, so the global publication order
  coincides with the mutation order; a subscriber's cursor is a position in
  this log.
-/

/-- Model of a Rust `f32` value by its bit pattern.  The server never computes
with coordinates, only stores and copies them (`main.rs` lines 60-67, 143-194),
so bit-pattern identity captures everything the code does with them. -/
structure F32 where
  bits : Nat
deriving DecidableEq, Repr

/-- `struct Player` (main.rs lines 60-67): id, planar coordinates, optional
vertical coordinate (`y`), which carries `#[serde(skip_serializing_if = "Option::is_none")]`. -/
structure Player where
  id : String
  x : F32
  z : F32
  y : Option F32
deriving DecidableEq, Repr

/-- The list of field names emitted when a `Player` is serialized: serde emits
declared fields in order and skips `y` when it is `None`
(main.rs line 65: `skip_serializing_if = "Option::is_none"`). -/
def Player.serializedFields (p : Player) : List String :=
  match p.y with
  | none => ["id", "x", "z"]
  | some _ => ["id", "x", "z", "y"]

/-- `enum PlayerUpdate` (main.rs lines 69-82), the event schema broadcast on
the bus and sent over websockets. -/
inductive PlayerUpdate where
  | created (player : Player)
  | moved (id : String) (x z : F32)
  | removed (id : String)
  | allCleared
  | initialState (players : List Player)
deriving DecidableEq, Repr

/-- Decimal digit character, as produced by Rust's `Display` for unsigned
integers (and by Lean's own `Nat.repr`). -/
def decDigitChar (n : Nat) : Char := Char.ofNat (48 + n)

/-- Fuel-based decimal rendering of a natural number, most significant digit
first; `fuel > n` always suffices.  This is the digit string produced by
`format!("{}", n)` for an unsigned integer in Rust. -/
def natDecAux : Nat → Nat → List Char → List Char
  | 0, _, acc => acc
  | fuel + 1, n, acc =>
    if n < 10 then decDigitChar n :: acc
    else natDecAux fuel (n / 10) (decDigitChar (n % 10) :: acc)

/-- Decimal rendering of `n` (list of digit characters, most significant first). -/
def natDec (n : Nat) : List Char := natDecAux (n + 1) n []

/-- The id string `format!("player_{}", n)` (main.rs line 148). -/
def playerId (n : Nat) : String := String.mk ("player_".data ++ natDec n)

/-- Model of the response body of `move_player`: `Json<String>` carrying either
`format!("Player {} moved to ({}, {})", id, x, z)` or
`format!("Player {} not found", id)` (main.rs lines 190, 192).  The two format
strings are modelled structurally (float `Display` rendering is not
interpreted); both are ordinary 200 responses, there is no error alternative. -/
inductive MoveResponse where
  | moved (id : String) (x z : F32)
  | notFound (id : String)
deriving DecidableEq, Repr

/-- Shared server state: the registry contents (`players`, the
`Arc<RwLock<Vec<Player>>>` of `AppState`) and the append-only publication log
of the broadcast channel `tx`. -/
structure SrvState where
  players : List Player
  log : List PlayerUpdate
deriving DecidableEq, Repr

/-- `players.iter_mut().find(|p| p.id == req.id)` followed by the in-place
coordinate update (main.rs lines 179-181): updates the first entity whose id
matches, returns `none` when no entity matches. -/
def movePlayerList (id : String) (x z : F32) : List Player → Option (List Player)
  | [] => none
  | p :: ps =>
    if p.id = id then some ({ p with x := x, z := z } :: ps)
    else
      match movePlayerList id x z ps with
      | some ps2 => some (p :: ps2)
      | none => none

/-- `create_player` (main.rs lines 143-164): allocate id `player_{len+1}`,
push the new player, then broadcast `Created`, then return the player. -/
def create_player (s : SrvState) (x z : F32) : SrvState × Player :=
  let id := playerId (s.players.length + 1)
  let player : Player := { id := id, x := x, z := z, y := none }
  ({ players := s.players ++ [player],
     log := s.log ++ [PlayerUpdate.created player] }, player)

/-- `move_player` (main.rs lines 173-194): update the first matching player in
place and broadcast `Moved`; when no player matches, leave the registry alone,
broadcast nothing, and answer with the not-found message. -/
def move_player (s : SrvState) (id : String) (x z : F32) : SrvState × MoveResponse :=
  match movePlayerList id x z s.players with
  | some ps2 =>
      ({ players := ps2, log := s.log ++ [PlayerUpdate.moved id x z] },
       MoveResponse.moved id x z)
  | none => (s, MoveResponse.notFound id)

/-- `clear_players` (main.rs lines 196-205): clear the registry, broadcast
`AllCleared`, answer `"All players cleared"`. -/
def clear_players (s : SrvState) : SrvState × String :=
  ({ players := [], log := s.log ++ [PlayerUpdate.allCleared] },
   "All players cleared")

/-- `get_players` (main.rs lines 132-135): a point-in-time copy of the registry. -/
def get_players (s : SrvState) : List Player := s.players

/-- Three-way comparison of naturals, the model of Rust `Ord` on integers. -/
def cmpNat (a b : Nat) : Ordering :=
  if a < b then Ordering.lt else if b < a then Ordering.gt else Ordering.eq

/-- Lexicographic three-way comparison of character lists by code point.  For
the UTF-8 strings at hand this is Rust's `str` ordering `a.cmp(b)` (byte-wise
lexicographic UTF-8 order coincides with code-point order). -/
def cmpCharList : List Char → List Char → Ordering
  | [], [] => Ordering.eq
  | [], _ :: _ => Ordering.lt
  | _ :: _, [] => Ordering.gt
  | a :: as, b :: bs =>
    match cmpNat a.toNat b.toNat with
    | Ordering.lt => Ordering.lt
    | Ordering.gt => Ordering.gt
    | Ordering.eq => cmpCharList as bs

/-- Rust `a.cmp(b)` on `&str` (main.rs line 126). -/
def strCmp (a b : String) : Ordering := cmpCharList a.data b.data

/-- Rust `s.split(sep)` on character lists: splits at every occurrence of the
separator, keeping empty pieces (`"".split(sep)` is `[""]`). -/
def splitChars (sep : Char) : List Char → List (List Char)
  | [] => [[]]
  | c :: cs =>
    if c = sep then [] :: splitChars sep cs
    else
      match splitChars sep cs with
      | t :: ts => (c :: t) :: ts
      | [] => [[c]]

/-- Rust `s.split(sep)` producing strings. -/
def strSplit (sep : Char) (s : String) : List String :=
  (splitChars sep s.data).map String.mk

/-- Numeric value of a list of decimal digit characters. -/
def decDigitsVal (cs : List Char) : Nat :=
  cs.foldl (fun a c => a * 10 + (c.toNat - 48)) 0

/-- Rust `part.parse::<u32>()` (main.rs line 116): an optional leading `'+'`,
then one or more ASCII digits, value below `2 ^ 32`; anything else is `None`. -/
def parseU32 (s : String) : Option Nat :=
  let cs :=
    match s.data with
    | '+' :: rest => rest
    | cs => cs
  if cs = [] then none
  else if cs.all (fun c => c.isDigit) then
    if decDigitsVal cs < 2 ^ 32 then some (decDigitsVal cs) else none
  else none

/-- The closure `extract_num` of `list_maps` (main.rs lines 113-117):
`s.split('_').nth(1).and_then(|part| part.parse::<u32>().ok())`. -/
def extract_num (s : String) : Option Nat :=
  (strSplit '_' s)[1]?.bind parseU32

/-- The comparator passed to `maps.sort_by` (main.rs lines 112-128). -/
def cmpMaps (a b : String) : Ordering :=
  match extract_num a, extract_num b with
  | some na, some nb => cmpNat na nb
  | some _, none => Ordering.lt
  | none, some _ => Ordering.gt
  | none, none => strCmp a b

/-- Stable insertion of an element into a list already sorted by `cmp`: the
element goes before the first position it does not strictly exceed. -/
def insertCmp (cmp : α → α → Ordering) (x : α) : List α → List α
  | [] => [x]
  | y :: ys =>
    if cmp x y = Ordering.gt then y :: insertCmp cmp x ys else x :: y :: ys

/-- Stable comparator sort; for a lawful comparator this has the same output
as Rust's stable `Vec::sort_by` (main.rs line 112). -/
def sortByCmp (cmp : α → α → Ordering) : List α → List α
  | [] => []
  | x :: xs => insertCmp cmp x (sortByCmp cmp xs)

/-- The file-kind answer of `entry.file_type()` (main.rs line 96). -/
inductive FsKind where
  | file
  | dir
  | symlink
deriving DecidableEq, Repr

/-- One directory entry as `list_maps` observes it: `fileType` is `none` when
`entry.file_type()` fails, `name` is `none` when `entry.file_name().to_str()`
fails (non-UTF-8 name). -/
structure DirEntry where
  fileType : Option FsKind
  name : Option String
deriving DecidableEq, Repr

/-- Rust `name.ends_with(post)` via reversed character lists. -/
def revStarts : List Char → List Char → Bool
  | _, [] => true
  | [], _ :: _ => false
  | a :: as, b :: bs => a = b && revStarts as bs

/-- Rust `name.ends_with(post)` (main.rs line 99). -/
def strEndsWith (s post : String) : Bool :=
  revStarts s.data.reverse post.data.reverse

/-- The collection loop of `list_maps` (main.rs lines 94-105): skip entries
whose `Result` is an error (`entries.flatten()`), skip entries whose file type
cannot be read, keep only regular files with UTF-8 names ending in `".json"`. -/
def collectMaps : List (Option DirEntry) → List String
  | [] => []
  | none :: es => collectMaps es
  | some e :: es =>
    match e.fileType with
    | none => collectMaps es
    | some k =>
      if k = FsKind.file then
        match e.name with
        | none => collectMaps es
        | some n =>
          if strEndsWith n ".json" then n :: collectMaps es else collectMaps es
      else collectMaps es

/-- `list_maps` (main.rs lines 91-130): the directory read either fails
(`dir = none`, yielding the empty listing after the logged warning) or yields
a sequence of entry results; the kept names are sorted with `cmpMaps`. -/
def list_maps (dir : Option (List (Option DirEntry))) : List String :=
  match dir with
  | none => sortByCmp cmpMaps []
  | some es => sortByCmp cmpMaps (collectMaps es)

/-- One mutating request, in the order it acquired the registry write lock
(mutations are serialized by the `RwLock`, and each handler broadcasts while
still holding the lock, so an execution is a sequence of these). -/
inductive Mut where
  | create (x z : F32)
  | move (id : String) (x z : F32)
  | clear
deriving DecidableEq, Repr

/-- State transition of one serialized mutating request. -/
def applyMut (s : SrvState) : Mut → SrvState
  | Mut.create x z => (create_player s x z).1
  | Mut.move id x z => (move_player s id x z).1
  | Mut.clear => (clear_players s).1

/-- Run a sequence of mutating requests from a state. -/
def runFrom (s : SrvState) (ms : List Mut) : SrvState := ms.foldl applyMut s

/-- The state installed by `main` (main.rs line 50): empty registry, nothing
published yet. -/
def initState : SrvState := { players := [], log := [] }

/-- Run a sequence of mutating requests from process start. -/
def runMuts (ms : List Mut) : SrvState := runFrom initState ms

/-- The ids returned by the create requests of a request sequence, in order. -/
def runCollect (s : SrvState) : List Mut → List String
  | [] => []
  | Mut.create x z :: ms =>
      (create_player s x z).2.id :: runCollect (create_player s x z).1 ms
  | Mut.move id x z :: ms => runCollect (move_player s id x z).1 ms
  | Mut.clear :: ms => runCollect (clear_players s).1 ms

/-- The ids returned by the create requests of a request sequence run from
process start. -/
def createdIds (ms : List Mut) : List String := runCollect initState ms

/-- The number of create requests in a sequence. -/
def numCreates : List Mut → Nat
  | [] => 0
  | Mut.create _ _ :: ms => numCreates ms + 1
  | _ :: ms => numCreates ms

theorem decDigitChar_toNat {m : Nat} (h : m < 10) : (decDigitChar m).toNat = 48 + m := by
  interval_cases m <;> rfl

theorem natDecAux_spec :
    ∀ fuel n acc, n < fuel →
      ∃ ds, natDecAux fuel n acc = ds ++ acc ∧ ds ≠ [] ∧ decDigitsVal ds = n := by
  intro fuel
  induction fuel with
  | zero => intro n acc h; exact absurd h (Nat.not_lt_zero n)
  | succ fuel ih =>
    intro n acc h
    by_cases h10 : n < 10
    · refine ⟨[decDigitChar n], by simp [natDecAux, h10], by simp, ?_⟩
      simp [decDigitsVal, decDigitChar_toNat h10]
    · have hdiv : n / 10 < fuel := by
        have h1 : n / 10 < n := Nat.div_lt_self (by omega) (by omega)
        omega
      obtain ⟨ds, hds, hne, hval⟩ := ih (n / 10) (decDigitChar (n % 10) :: acc) hdiv
      refine ⟨ds ++ [decDigitChar (n % 10)], ?_, by simp, ?_⟩
      · simp only [natDecAux, if_neg h10, hds, List.append_assoc, List.singleton_append]
      · have hm : n % 10 < 10 := Nat.mod_lt n (by omega)
        simp only [decDigitsVal, List.foldl_append] at hval ⊢
        simp [decDigitChar_toNat hm, hval]
        omega

theorem natDec_inj {m n : Nat} (h : natDec m = natDec n) : m = n := by
  obtain ⟨ds1, h1, _, v1⟩ := natDecAux_spec (m + 1) m [] (Nat.lt_succ_self m)
  obtain ⟨ds2, h2, _, v2⟩ := natDecAux_spec (n + 1) n [] (Nat.lt_succ_self n)
  rw [natDec, natDec, h1, h2] at h
  simp at h
  rw [← v1, ← v2, h]

theorem playerId_inj {m n : Nat} (h : playerId m = playerId n) : m = n := by
  apply natDec_inj
  have := congrArg String.data h
  simpa [playerId] using this

theorem movePlayerList_length {id : String} {x z : F32} :
    ∀ {ps ps2 : List Player}, movePlayerList id x z ps = some ps2 →
      ps2.length = ps.length := by
  intro ps
  induction ps with
  | nil => intro ps2 h; simp [movePlayerList] at h
  | cons p ps ih =>
    intro ps2 h
    by_cases hid : p.id = id
    · simp only [movePlayerList, if_pos hid, Option.some.injEq] at h
      simp [← h]
    · simp only [movePlayerList, if_neg hid] at h
      cases hrec : movePlayerList id x z ps with
      | none => rw [hrec] at h; exact absurd h (by simp)
      | some ps3 =>
        rw [hrec] at h
        simp only [Option.some.injEq] at h
        simp [← h, ih hrec]

theorem move_player_players_length (s : SrvState) (id : String) (x z : F32) :
    (move_player s id x z).1.players.length = s.players.length := by
  unfold move_player
  cases hrec : movePlayerList id x z s.players with
  | none => rfl
  | some ps2 => simpa using movePlayerList_length hrec

/-- Client-side application of one broadcast event to an entity list: the
update the event denotes (`created` appends its player, `moved` updates the
first matching entity, `allCleared` empties the list; `removed` is reserved
and never emitted, `initialState` replaces the state). -/
def applyEvent (ps : List Player) : PlayerUpdate → List Player
  | PlayerUpdate.created p => ps ++ [p]
  | PlayerUpdate.moved id x z =>
    match movePlayerList id x z ps with
    | some ps2 => ps2
    | none => ps
  | PlayerUpdate.removed _ => ps
  | PlayerUpdate.allCleared => []
  | PlayerUpdate.initialState l => l

/-- Replay of a list of broadcast events onto an entity list. -/
def applyEvents (ps : List Player) (es : List PlayerUpdate) : List Player :=
  es.foldl applyEvent ps

theorem applyMut_log_players (s : SrvState) (m : Mut) :
    ∃ es, (applyMut s m).log = s.log ++ es ∧
      (applyMut s m).players = applyEvents s.players es := by
  cases m with
  | create x z =>
    exact ⟨[PlayerUpdate.created { id := playerId (s.players.length + 1), x := x, z := z, y := none }],
      by simp [applyMut, create_player], by simp [applyMut, create_player, applyEvents, applyEvent]⟩
  | move id x z =>
    cases hrec : movePlayerList id x z s.players with
    | none =>
      refine ⟨[], ?_, ?_⟩ <;> simp [applyMut, move_player, hrec, applyEvents]
    | some ps2 =>
      refine ⟨[PlayerUpdate.moved id x z], ?_, ?_⟩ <;>
        simp [applyMut, move_player, hrec, applyEvents, applyEvent]
  | clear =>
    exact ⟨[PlayerUpdate.allCleared], by simp [applyMut, clear_players],
      by simp [applyMut, clear_players, applyEvents, applyEvent]⟩

theorem runFrom_log_players :
    ∀ (ms : List Mut) (s : SrvState),
      ∃ es, (runFrom s ms).log = s.log ++ es ∧
        (runFrom s ms).players = applyEvents s.players es := by
  intro ms
  induction ms with
  | nil => intro s; exact ⟨[], by simp [runFrom], by simp [runFrom, applyEvents]⟩
  | cons m ms ih =>
    intro s
    obtain ⟨es1, h1, h2⟩ := applyMut_log_players s m
    obtain ⟨es2, h3, h4⟩ := ih (applyMut s m)
    refine ⟨es1 ++ es2, ?_, ?_⟩
    · show (runFrom (applyMut s m) ms).log = _
      rw [h3, h1, List.append_assoc]
    · show (runFrom (applyMut s m) ms).players = _
      rw [h4, h2, applyEvents, applyEvents, applyEvents, List.foldl_append]

theorem runCollect_clear_free :
    ∀ (ms : List Mut) (s : SrvState), Mut.clear ∉ ms →
      runCollect s ms = (List.range' (s.players.length + 1) (numCreates ms)).map playerId := by
  intro ms
  induction ms with
  | nil => intro s h; simp [runCollect, numCreates]
  | cons m ms ih =>
    intro s h
    have hm : Mut.clear ∉ ms := fun hc => h (List.mem_cons_of_mem m hc)
    cases m with
    | create x z =>
      have hlen : (create_player s x z).1.players.length = s.players.length + 1 := by
        simp [create_player]
      rw [runCollect, ih _ hm, hlen]
      simp [numCreates, List.range'_succ, create_player]
    | move id x z =>
      rw [runCollect, ih _ hm, move_player_players_length]
      simp [numCreates]
    | clear => exact absurd (List.mem_cons_self _ _) (fun hc => h hc)

set_option maxRecDepth 2000 in
/-- C1 fails on the code: `create_player` derives the id from the current
registry length (main.rs line 148), and `clear_players` resets that length, so
the sequence create, clear, create returns the id `player_1` twice. -/
theorem claim_C1_counterexample :
    ¬ List.Pairwise (fun a b => a ≠ b)
      (createdIds [Mut.create ⟨0⟩ ⟨0⟩, Mut.clear, Mut.create ⟨0⟩ ⟨0⟩]) := by
  decide

/-- C1 (amended): in any sequence of create and move requests with no
intervening clear, run from the process-start registry, all ids returned by
create requests are pairwise distinct. -/
theorem claim_C1 (ms : List Mut) (h : Mut.clear ∉ ms) :
    List.Pairwise (fun a b => a ≠ b) (createdIds ms) := by
  rw [createdIds, runCollect_clear_free ms initState h]
  have hnd : (List.range' (initState.players.length + 1) (numCreates ms)).Nodup :=
    List.nodup_range' _ _
  exact (hnd.map (fun a b hab => playerId_inj hab) : _)

set_option maxRecDepth 2000 in
theorem claim_C1_witness :
    Mut.clear ∉ [Mut.create ⟨1⟩ ⟨2⟩, Mut.move (playerId 1) ⟨3⟩ ⟨4⟩, Mut.create ⟨5⟩ ⟨6⟩] ∧
      List.Pairwise (fun a b => a ≠ b)
        (createdIds [Mut.create ⟨1⟩ ⟨2⟩, Mut.move (playerId 1) ⟨3⟩ ⟨4⟩, Mut.create ⟨5⟩ ⟨6⟩]) :=
  ⟨by decide, claim_C1 _ (by decide)⟩

/-- C2: `handle_socket` subscribes to the bus (main.rs line 213) before
reading its registry snapshot (line 216), so for every serialized sequence of
mutations, with the subscription cursor placed at mutation boundary `i` and the
snapshot read at boundary `j ≥ i`, the events delivered after the cursor are
`dup ++ tail` where `dup` is exactly the publications of the mutations applied
between the two operations (already reflected in the snapshot) and replaying
`tail` on the snapshot reproduces the current registry: no mutation between
the two operations is missing from the stream, and the snapshot plus the
delivered events has no gap. -/
theorem claim_C2 (ms : List Mut) (i j : Nat) (hij : i ≤ j) :
    ∃ dup tail,
      (runMuts ms).log.drop (runMuts (ms.take i)).log.length = dup ++ tail ∧
      (runMuts (ms.take j)).log = (runMuts (ms.take i)).log ++ dup ∧
      applyEvents (runMuts (ms.take i)).players dup = (runMuts (ms.take j)).players ∧
      applyEvents (runMuts (ms.take j)).players tail = (runMuts ms).players := by
  have hsplit : ms.take i ++ (ms.take j).drop i = ms.take j := by
    have h1 : (ms.take j).take i = ms.take i := by
      rw [List.take_take, Nat.min_eq_left hij]
    conv_lhs => rw [← h1]
    exact List.take_append_drop i (ms.take j)
  have h1 : runMuts (ms.take j) = runFrom (runMuts (ms.take i)) ((ms.take j).drop i) := by
    rw [runMuts, runMuts, runFrom, runFrom, runFrom, ← List.foldl_append, hsplit]
  have h2 : runMuts ms = runFrom (runMuts (ms.take j)) (ms.drop j) := by
    rw [runMuts, runMuts, runFrom, runFrom, runFrom, ← List.foldl_append,
      List.take_append_drop]
  obtain ⟨dup, hd1, hd2⟩ := runFrom_log_players ((ms.take j).drop i) (runMuts (ms.take i))
  obtain ⟨tail, ht1, ht2⟩ := runFrom_log_players (ms.drop j) (runMuts (ms.take j))
  rw [← h1] at hd1 hd2
  rw [← h2] at ht1 ht2
  refine ⟨dup, tail, ?_, hd1, hd2.symm, ht2.symm⟩
  rw [ht1, hd1, List.append_assoc, List.drop_left]

theorem claim_C2_witness :
    ∃ dup tail,
      (runMuts [Mut.create ⟨1⟩ ⟨2⟩, Mut.clear]).log.drop
          (runMuts ([Mut.create ⟨1⟩ ⟨2⟩, Mut.clear].take 0)).log.length = dup ++ tail ∧
      (runMuts ([Mut.create ⟨1⟩ ⟨2⟩, Mut.clear].take 1)).log =
          (runMuts ([Mut.create ⟨1⟩ ⟨2⟩, Mut.clear].take 0)).log ++ dup ∧
      applyEvents (runMuts ([Mut.create ⟨1⟩ ⟨2⟩, Mut.clear].take 0)).players dup =
          (runMuts ([Mut.create ⟨1⟩ ⟨2⟩, Mut.clear].take 1)).players ∧
      applyEvents (runMuts ([Mut.create ⟨1⟩ ⟨2⟩, Mut.clear].take 1)).players tail =
          (runMuts [Mut.create ⟨1⟩ ⟨2⟩, Mut.clear]).players :=
  claim_C2 [Mut.create ⟨1⟩ ⟨2⟩, Mut.clear] 0 1 (by decide)

theorem movePlayerList_not_found {id : String} {x z : F32} :
    ∀ {ps : List Player}, (∀ p ∈ ps, p.id ≠ id) → movePlayerList id x z ps = none := by
  intro ps
  induction ps with
  | nil => intro _; rfl
  | cons p ps ih =>
    intro h
    have hp : p.id ≠ id := h p (List.mem_cons_self p ps)
    have hps : ∀ q ∈ ps, q.id ≠ id := fun q hq => h q (List.mem_cons_of_mem p hq)
    simp only [movePlayerList, if_neg hp, ih hps]

theorem movePlayerList_found {id : String} {x z : F32} {p : Player} (hp : p.id = id) :
    ∀ {pre : List Player}, (∀ q ∈ pre, q.id ≠ id) → ∀ (post : List Player),
      movePlayerList id x z (pre ++ p :: post) =
        some (pre ++ { p with x := x, z := z } :: post) := by
  intro pre
  induction pre with
  | nil => intro _ post; simp [movePlayerList, hp]
  | cons q pre ih =>
    intro h post
    have hq : q.id ≠ id := h q (List.mem_cons_self q pre)
    have hpre : ∀ r ∈ pre, r.id ≠ id := fun r hr => h r (List.mem_cons_of_mem q hr)
    simp only [List.cons_append, movePlayerList, if_neg hq, List.append_eq, ih hpre post]

/-- C5: moving a nonexistent id leaves the whole server state unchanged
(registry contents and publication log, so no event is broadcast) and answers
with the not-found message, which is an ordinary `Json<String>` 200 response,
not a session-aborting error (main.rs lines 191-193). -/
theorem claim_C5 (s : SrvState) (id : String) (x z : F32)
    (h : ∀ p ∈ s.players, p.id ≠ id) :
    move_player s id x z = (s, MoveResponse.notFound id) := by
  rw [move_player, movePlayerList_not_found h]

theorem claim_C5_witness :
    (∀ p ∈ ({ players := [{ id := "player_1", x := ⟨7⟩, z := ⟨8⟩, y := none }], log := [] } : SrvState).players, p.id ≠ "player_2") ∧
      move_player { players := [{ id := "player_1", x := ⟨7⟩, z := ⟨8⟩, y := none }], log := [] } "player_2" ⟨5⟩ ⟨5⟩ =
        ({ players := [{ id := "player_1", x := ⟨7⟩, z := ⟨8⟩, y := none }], log := [] },
          MoveResponse.notFound "player_2") :=
  ⟨by decide, claim_C5 _ _ _ _ (by decide)⟩

/-- C6: for every registry state and coordinates, create succeeds, appends to
the end of the registry a new entity carrying exactly the given coordinates
and an absent vertical value (`y = none`, so serde omits the `y` field from
the serialized response), broadcasts its creation, and returns that entity. -/
theorem claim_C6 (s : SrvState) (x z : F32) :
    ∃ p : Player,
      create_player s x z =
        ({ players := s.players ++ [p], log := s.log ++ [PlayerUpdate.created p] }, p) ∧
      p.x = x ∧ p.z = z ∧ p.y = none ∧ "y" ∉ p.serializedFields :=
  ⟨{ id := playerId (s.players.length + 1), x := x, z := z, y := none },
    rfl, rfl, rfl, rfl, by simp [Player.serializedFields]⟩

/-- C10: moving an existing id updates the first entity whose id matches,
replacing only its planar coordinates; its id and `y` field, every other
entity, and the relative order of the registry are unchanged. -/
theorem claim_C10 (s : SrvState) (pre post : List Player) (p : Player) (id : String)
    (x z : F32) (hs : s.players = pre ++ p :: post) (hp : p.id = id)
    (hpre : ∀ q ∈ pre, q.id ≠ id) :
    (move_player s id x z).1.players =
      pre ++ ({ id := p.id, x := x, z := z, y := p.y } : Player) :: post := by
  have h1 : movePlayerList id x z s.players =
      some (pre ++ { p with x := x, z := z } :: post) := by
    rw [hs]; exact movePlayerList_found hp hpre post
  rw [move_player, h1]

theorem claim_C10_witness :
    (({ players := [{ id := "player_1", x := ⟨1⟩, z := ⟨2⟩, y := none },
          { id := "player_2", x := ⟨3⟩, z := ⟨4⟩, y := some ⟨9⟩ }], log := [] } : SrvState).players =
        [{ id := "player_1", x := ⟨1⟩, z := ⟨2⟩, y := none }] ++
          { id := "player_2", x := ⟨3⟩, z := ⟨4⟩, y := some ⟨9⟩ } :: []) ∧
      (move_player { players := [{ id := "player_1", x := ⟨1⟩, z := ⟨2⟩, y := none },
            { id := "player_2", x := ⟨3⟩, z := ⟨4⟩, y := some ⟨9⟩ }], log := [] }
          "player_2" ⟨5⟩ ⟨6⟩).1.players =
        [{ id := "player_1", x := ⟨1⟩, z := ⟨2⟩, y := none }] ++
          ({ id := "player_2", x := ⟨5⟩, z := ⟨6⟩, y := some ⟨9⟩ } : Player) :: [] :=
  ⟨by decide,
    claim_C10 _ [{ id := "player_1", x := ⟨1⟩, z := ⟨2⟩, y := none }] []
      { id := "player_2", x := ⟨3⟩, z := ⟨4⟩, y := some ⟨9⟩ } "player_2" ⟨5⟩ ⟨6⟩
      (by decide) (by decide) (by decide)⟩

/-- Intermediate observable states of `create_player`, in program order: the
state just after `players.push` (main.rs line 155, mutation applied, nothing
published yet) and the state just after `tx.send` (line 159, event
published).  The write lock is held throughout, so these are the only two
observation points. -/
def create_player_trace (s : SrvState) (x z : F32) : List SrvState :=
  let p : Player := { id := playerId (s.players.length + 1), x := x, z := z, y := none }
  [{ players := s.players ++ [p], log := s.log },
   { players := s.players ++ [p], log := s.log ++ [PlayerUpdate.created p] }]

/-- Intermediate observable states of `move_player` (main.rs lines 179-193):
after the in-place coordinate write (lines 180-181) and after `tx.send`
(line 184); when the id is not found nothing is mutated or published. -/
def move_player_trace (s : SrvState) (id : String) (x z : F32) : List SrvState :=
  match movePlayerList id x z s.players with
  | some ps2 =>
      [{ players := ps2, log := s.log },
       { players := ps2, log := s.log ++ [PlayerUpdate.moved id x z] }]
  | none => [s]

/-- Intermediate observable states of `clear_players` (main.rs lines 196-205):
after `players.clear()` (line 198) and after `tx.send` (line 202). -/
def clear_players_trace (s : SrvState) : List SrvState :=
  [{ players := [], log := s.log },
   { players := [], log := s.log ++ [PlayerUpdate.allCleared] }]

/-- C7: in each mutating handler the broadcast happens only after the registry
mutation is applied: the first observable state of each handler's trace has
the mutation applied with nothing yet published, every trace state whose log
grew already shows the mutation, and the final trace state is the handler's
result. -/
theorem claim_C7 (s : SrvState) (x z : F32) (id : String) (ps2 : List Player)
    (hfound : movePlayerList id x z s.players = some ps2) :
    ((create_player_trace s x z).head? =
        some { players := s.players ++ [(create_player s x z).2], log := s.log } ∧
      (∀ t ∈ create_player_trace s x z, t.log ≠ s.log →
        t.players = s.players ++ [(create_player s x z).2]) ∧
      (create_player_trace s x z).getLast? = some (create_player s x z).1) ∧
    ((move_player_trace s id x z).head? = some { players := ps2, log := s.log } ∧
      (∀ t ∈ move_player_trace s id x z, t.log ≠ s.log → t.players = ps2) ∧
      (move_player_trace s id x z).getLast? = some (move_player s id x z).1) ∧
    ((clear_players_trace s).head? = some { players := [], log := s.log } ∧
      (∀ t ∈ clear_players_trace s, t.log ≠ s.log → t.players = []) ∧
      (clear_players_trace s).getLast? = some (clear_players s).1) := by
  refine ⟨⟨rfl, ?_, rfl⟩, ⟨?_, ?_, ?_⟩, ⟨rfl, ?_, rfl⟩⟩
  · intro t ht hne
    simp only [create_player_trace, List.mem_cons, List.not_mem_nil, or_false] at ht
    rcases ht with rfl | rfl
    · exact absurd rfl hne
    · rfl
  · simp [move_player_trace, hfound]
  · intro t ht hne
    simp only [move_player_trace, hfound, List.mem_cons, List.not_mem_nil, or_false] at ht
    rcases ht with rfl | rfl
    · exact absurd rfl hne
    · rfl
  · simp [move_player_trace, move_player, hfound]
  · intro t ht hne
    simp only [clear_players_trace, List.mem_cons, List.not_mem_nil, or_false] at ht
    rcases ht with rfl | rfl
    · exact absurd rfl hne
    · rfl

/-- A one-player concrete state used to witness C7. -/
def c7State : SrvState :=
  { players := [{ id := "player_1", x := ⟨1⟩, z := ⟨2⟩, y := none }], log := [] }

/-- The result of moving that player, used to witness C7. -/
def c7Moved : List Player := [{ id := "player_1", x := ⟨3⟩, z := ⟨4⟩, y := none }]

theorem claim_C7_witness :
    movePlayerList "player_1" ⟨3⟩ ⟨4⟩ c7State.players = some c7Moved ∧
      ((create_player_trace c7State ⟨3⟩ ⟨4⟩).head? =
          some { players := c7State.players ++ [(create_player c7State ⟨3⟩ ⟨4⟩).2], log := c7State.log } ∧
        (∀ t ∈ create_player_trace c7State ⟨3⟩ ⟨4⟩, t.log ≠ c7State.log →
          t.players = c7State.players ++ [(create_player c7State ⟨3⟩ ⟨4⟩).2]) ∧
        (create_player_trace c7State ⟨3⟩ ⟨4⟩).getLast? =
          some (create_player c7State ⟨3⟩ ⟨4⟩).1) ∧
      ((move_player_trace c7State "player_1" ⟨3⟩ ⟨4⟩).head? =
          some { players := c7Moved, log := c7State.log } ∧
        (∀ t ∈ move_player_trace c7State "player_1" ⟨3⟩ ⟨4⟩, t.log ≠ c7State.log →
          t.players = c7Moved) ∧
        (move_player_trace c7State "player_1" ⟨3⟩ ⟨4⟩).getLast? =
          some (move_player c7State "player_1" ⟨3⟩ ⟨4⟩).1) ∧
      ((clear_players_trace c7State).head? = some { players := [], log := c7State.log } ∧
        (∀ t ∈ clear_players_trace c7State, t.log ≠ c7State.log → t.players = []) ∧
        (clear_players_trace c7State).getLast? = some (clear_players c7State).1) :=
  ⟨by decide, claim_C7 c7State ⟨3⟩ ⟨4⟩ "player_1" c7Moved (by decide)⟩

/-- The forward loop of `handle_socket`'s send task (main.rs lines 225-237):
for each event received from the bus, `ser` gives the outcome of
`serde_json::to_string` and `conn k` tells whether the k-th websocket write
succeeds; the result is the list of payloads actually written.  A `none`
serialization skips the event and continues; a failed write breaks the loop. -/
def sendLoop (ser : PlayerUpdate → Option String) (conn : Nat → Bool) :
    List PlayerUpdate → Nat → List String
  | [], _ => []
  | m :: ms, k =>
    match ser m with
    | none => sendLoop ser conn ms k
    | some j => if conn k then j :: sendLoop ser conn ms (k + 1) else []

/-- C8: in the forward loop, an event whose serialization fails is skipped and
the session continues exactly as if that event had not occurred, while a
failed write of a serialized message delivers nothing further: the forward
duty terminates. -/
theorem claim_C8 (ser : PlayerUpdate → Option String) (conn : Nat → Bool)
    (m1 m2 : PlayerUpdate) (j : String) (ms1 ms2 : List PlayerUpdate) (k : Nat)
    (h1 : ser m1 = none) (h2 : ser m2 = some j) (h3 : conn k = false) :
    sendLoop ser conn (m1 :: ms1) k = sendLoop ser conn ms1 k ∧
      sendLoop ser conn (m2 :: ms2) k = [] := by
  constructor
  · rw [sendLoop, h1]
  · rw [sendLoop, h2]
    simp [h3]

theorem claim_C8_witness :
    (fun m => match m with | PlayerUpdate.allCleared => none | _ => some "x") PlayerUpdate.allCleared = none ∧
      (fun m => match m with | PlayerUpdate.allCleared => none | _ => some "x") (PlayerUpdate.removed "a") = some "x" ∧
      (fun _ => false) 0 = false ∧
      sendLoop (fun m => match m with | PlayerUpdate.allCleared => none | _ => some "x") (fun _ => false)
          (PlayerUpdate.allCleared :: [PlayerUpdate.removed "a"]) 0 =
        sendLoop (fun m => match m with | PlayerUpdate.allCleared => none | _ => some "x") (fun _ => false)
          [PlayerUpdate.removed "a"] 0 ∧
      sendLoop (fun m => match m with | PlayerUpdate.allCleared => none | _ => some "x") (fun _ => false)
          (PlayerUpdate.removed "a" :: []) 0 = [] := by
  refine ⟨rfl, rfl, rfl, ?_, ?_⟩
  · exact (claim_C8 _ _ _ (PlayerUpdate.removed "a") "x" _ [] 0 rfl rfl rfl).1
  · exact (claim_C8 _ _ PlayerUpdate.allCleared _ "x" [] _ 0 rfl rfl rfl).2

theorem char_toNat_inj {a b : Char} (h : a.toNat = b.toNat) : a = b :=
  Char.ext (UInt32.ext h)

theorem cmpNat_eq_lt {a b : Nat} : cmpNat a b = Ordering.lt ↔ a < b := by
  unfold cmpNat
  rcases Nat.lt_trichotomy a b with h | h | h
  · simp [h]
  · simp [h, Nat.lt_irrefl]
  · simp [h, Nat.lt_asymm h, Nat.lt_irrefl]

theorem cmpNat_eq_eq {a b : Nat} : cmpNat a b = Ordering.eq ↔ a = b := by
  unfold cmpNat
  rcases Nat.lt_trichotomy a b with h | h | h
  · simp [h, Nat.ne_of_lt h]
  · simp [h, Nat.lt_irrefl]
  · simp [h, Nat.lt_asymm h, Ne.symm (Nat.ne_of_lt h)]

theorem cmpNat_eq_gt {a b : Nat} : cmpNat a b = Ordering.gt ↔ b < a := by
  unfold cmpNat
  rcases Nat.lt_trichotomy a b with h | h | h
  · simp [h, Nat.lt_asymm h]
  · simp [h, Nat.lt_irrefl]
  · simp [h, Nat.lt_asymm h]

theorem cmpNat_swap (a b : Nat) : cmpNat b a = (cmpNat a b).swap := by
  unfold cmpNat
  rcases Nat.lt_trichotomy a b with h | h | h
  · simp [h, Nat.lt_asymm h, Ordering.swap]
  · simp [h, Nat.lt_irrefl, Ordering.swap]
  · simp [h, Nat.lt_asymm h, Ordering.swap]

theorem cmpCharList_swap : ∀ (a b : List Char), cmpCharList b a = (cmpCharList a b).swap := by
  intro a
  induction a with
  | nil =>
    intro b
    cases b with
    | nil => rfl
    | cons b0 bs => rfl
  | cons a0 as ih =>
    intro b
    cases b with
    | nil => rfl
    | cons b0 bs =>
      show cmpCharList (b0 :: bs) (a0 :: as) = _
      rw [cmpCharList, cmpCharList, cmpNat_swap]
      cases hc : cmpNat a0.toNat b0.toNat with
      | lt => rfl
      | gt => rfl
      | eq => simp [Ordering.swap, ih bs]

theorem cmpCharList_eq_eq : ∀ {a b : List Char}, cmpCharList a b = Ordering.eq ↔ a = b := by
  intro a
  induction a with
  | nil =>
    intro b
    cases b with
    | nil => simp [cmpCharList]
    | cons b0 bs => simp [cmpCharList]
  | cons a0 as ih =>
    intro b
    cases b with
    | nil => simp [cmpCharList]
    | cons b0 bs =>
      rw [cmpCharList]
      cases hc : cmpNat a0.toNat b0.toNat with
      | lt =>
        have hne : a0 ≠ b0 := by
          intro he
          rw [he] at hc
          rw [cmpNat_eq_lt] at hc
          exact Nat.lt_irrefl _ hc
        simp [hne]
      | gt =>
        have hne : a0 ≠ b0 := by
          intro he
          rw [he] at hc
          rw [cmpNat_eq_gt] at hc
          exact Nat.lt_irrefl _ hc
        simp [hne]
      | eq =>
        have he : a0 = b0 := char_toNat_inj (cmpNat_eq_eq.mp hc)
        simp [he, ih]

theorem cmpCharList_lt_trans :
    ∀ {a b c : List Char}, cmpCharList a b = Ordering.lt →
      cmpCharList b c = Ordering.lt → cmpCharList a c = Ordering.lt := by
  intro a
  induction a with
  | nil =>
    intro b c h1 h2
    cases c with
    | cons c0 cs => rfl
    | nil =>
      cases b with
      | nil => exact absurd h1 (by simp [cmpCharList])
      | cons b0 bs => exact absurd h2 (by simp [cmpCharList])
  | cons a0 as ih =>
    intro b c h1 h2
    cases b with
    | nil => exact absurd h1 (by simp [cmpCharList])
    | cons b0 bs =>
      cases c with
      | nil => exact absurd h2 (by simp [cmpCharList])
      | cons c0 cs =>
        rw [cmpCharList] at h1 h2 ⊢
        cases hab : cmpNat a0.toNat b0.toNat with
        | gt => rw [hab] at h1; exact absurd h1 (by simp)
        | lt =>
          cases hbc : cmpNat b0.toNat c0.toNat with
          | gt => rw [hbc] at h2; exact absurd h2 (by simp)
          | lt =>
            have : cmpNat a0.toNat c0.toNat = Ordering.lt :=
              cmpNat_eq_lt.mpr (Nat.lt_trans (cmpNat_eq_lt.mp hab) (cmpNat_eq_lt.mp hbc))
            rw [this]
          | eq =>
            have he : b0.toNat = c0.toNat := cmpNat_eq_eq.mp hbc
            have : cmpNat a0.toNat c0.toNat = Ordering.lt :=
              cmpNat_eq_lt.mpr (he ▸ cmpNat_eq_lt.mp hab)
            rw [this]
        | eq =>
          have he : a0.toNat = b0.toNat := cmpNat_eq_eq.mp hab
          rw [hab] at h1
          cases hbc : cmpNat b0.toNat c0.toNat with
          | gt => rw [hbc] at h2; exact absurd h2 (by simp)
          | lt =>
            have : cmpNat a0.toNat c0.toNat = Ordering.lt :=
              cmpNat_eq_lt.mpr (he ▸ cmpNat_eq_lt.mp hbc)
            rw [this]
          | eq =>
            have he2 : b0.toNat = c0.toNat := cmpNat_eq_eq.mp hbc
            rw [hbc] at h2
            have hac : cmpNat a0.toNat c0.toNat = Ordering.eq :=
              cmpNat_eq_eq.mpr (he.trans he2)
            rw [hac]
            exact ih h1 h2

theorem ord_ne_gt {o : Ordering} : o ≠ Ordering.gt ↔ o = Ordering.lt ∨ o = Ordering.eq := by
  cases o <;> simp

theorem cmpCharList_le_trans {a b c : List Char} (h1 : cmpCharList a b ≠ Ordering.gt)
    (h2 : cmpCharList b c ≠ Ordering.gt) : cmpCharList a c ≠ Ordering.gt := by
  rw [ord_ne_gt] at h1 h2 ⊢
  rcases h1 with h1 | h1 <;> rcases h2 with h2 | h2
  · exact Or.inl (cmpCharList_lt_trans h1 h2)
  · rw [cmpCharList_eq_eq] at h2
    exact Or.inl (h2 ▸ h1)
  · rw [cmpCharList_eq_eq] at h1
    exact Or.inl (h1 ▸ h2)
  · rw [cmpCharList_eq_eq] at h1 h2
    exact Or.inr (cmpCharList_eq_eq.mpr (h1.trans h2))

theorem cmpMaps_swap (a b : String) : cmpMaps b a = (cmpMaps a b).swap := by
  unfold cmpMaps
  cases hea : extract_num a <;> cases heb : extract_num b
  · exact (cmpCharList_swap a.data b.data : _)
  · rfl
  · rfl
  · exact cmpNat_swap _ _

theorem cmpMaps_total {a b : String} (h : cmpMaps a b = Ordering.gt) :
    cmpMaps b a ≠ Ordering.gt := by
  rw [cmpMaps_swap, h]
  simp [Ordering.swap]

theorem cmpMaps_le_trans {a b c : String} (h1 : cmpMaps a b ≠ Ordering.gt)
    (h2 : cmpMaps b c ≠ Ordering.gt) : cmpMaps a c ≠ Ordering.gt := by
  unfold cmpMaps at h1 h2 ⊢
  cases hea : extract_num a <;> cases heb : extract_num b <;> cases hec : extract_num c <;>
    rw [hea, heb] at h1 <;> rw [heb, hec] at h2 <;> try simp_all
  · exact cmpCharList_le_trans h1 h2
  · rw [cmpNat_eq_gt] at h1 h2 ⊢
    omega

theorem insertCmp_perm (cmp : α → α → Ordering) (x : α) :
    ∀ l : List α, (insertCmp cmp x l).Perm (x :: l) := by
  intro l
  induction l with
  | nil => exact List.Perm.refl _
  | cons y ys ih =>
    rw [insertCmp]
    by_cases h : cmp x y = Ordering.gt
    · rw [if_pos h]
      exact (ih.cons y).trans (List.Perm.swap x y ys)
    · rw [if_neg h]

theorem sortByCmp_perm (cmp : α → α → Ordering) :
    ∀ l : List α, (sortByCmp cmp l).Perm l := by
  intro l
  induction l with
  | nil => exact List.Perm.refl _
  | cons x xs ih =>
    exact (insertCmp_perm cmp x (sortByCmp cmp xs)).trans (ih.cons x)

theorem insertCmp_sorted (cmp : α → α → Ordering)
    (htot : ∀ a b, cmp a b = Ordering.gt → cmp b a ≠ Ordering.gt)
    (htrans : ∀ a b c, cmp a b ≠ Ordering.gt → cmp b c ≠ Ordering.gt →
      cmp a c ≠ Ordering.gt) (x : α) :
    ∀ l : List α, l.Pairwise (fun a b => cmp a b ≠ Ordering.gt) →
      (insertCmp cmp x l).Pairwise (fun a b => cmp a b ≠ Ordering.gt) := by
  intro l
  induction l with
  | nil => intro _; simp [insertCmp]
  | cons y ys ih =>
    intro hp
    rw [List.pairwise_cons] at hp
    obtain ⟨hy, hys⟩ := hp
    rw [insertCmp]
    by_cases h : cmp x y = Ordering.gt
    · rw [if_pos h, List.pairwise_cons]
      refine ⟨?_, ih hys⟩
      intro z hz
      rw [(insertCmp_perm cmp x ys).mem_iff, List.mem_cons] at hz
      rcases hz with rfl | hz
      · exact htot _ _ h
      · exact hy z hz
    · rw [if_neg h, List.pairwise_cons]
      refine ⟨?_, List.pairwise_cons.mpr ⟨hy, hys⟩⟩
      intro z hz
      rw [List.mem_cons] at hz
      rcases hz with rfl | hz
      · exact h
      · exact htrans _ _ _ h (hy z hz)

theorem sortByCmp_sorted (cmp : α → α → Ordering)
    (htot : ∀ a b, cmp a b = Ordering.gt → cmp b a ≠ Ordering.gt)
    (htrans : ∀ a b c, cmp a b ≠ Ordering.gt → cmp b c ≠ Ordering.gt →
      cmp a c ≠ Ordering.gt) :
    ∀ l : List α, (sortByCmp cmp l).Pairwise (fun a b => cmp a b ≠ Ordering.gt) := by
  intro l
  induction l with
  | nil => simp [sortByCmp]
  | cons x xs ih => exact insertCmp_sorted cmp htot htrans x _ ih

/-- The map ordering exactly as the spec words it: extract the integer found
as the second underscore-delimited token of the filename (absent or
unparsable sorts after every numeric value), break ties among non-numeric
names lexicographically. -/
def specMapOrder (a b : String) : Ordering :=
  match (strSplit '_' a)[1]?.bind parseU32, (strSplit '_' b)[1]?.bind parseU32 with
  | some na, some nb => cmpNat na nb
  | some _, none => Ordering.lt
  | none, some _ => Ordering.gt
  | none, none => strCmp a b

/-- C4: the comparator of `list_maps` agrees with the spec's ordering rule on
every pair of filenames, every listing `list_maps` returns is sorted according
to that rule, and the listing is a permutation of the collected directory
names (so the sortedness is about the real listing, not a truncation). -/
theorem claim_C4 :
    (∀ a b, cmpMaps a b = specMapOrder a b) ∧
      (∀ dir, (list_maps dir).Pairwise (fun a b => specMapOrder a b ≠ Ordering.gt)) ∧
      (∀ es, (list_maps (some es)).Perm (collectMaps es)) := by
  refine ⟨fun a b => rfl, ?_, fun es => sortByCmp_perm cmpMaps (collectMaps es)⟩
  intro dir
  have h : ∀ l : List String,
      (sortByCmp cmpMaps l).Pairwise (fun a b => specMapOrder a b ≠ Ordering.gt) := by
    intro l
    exact sortByCmp_sorted cmpMaps (fun a b => cmpMaps_total)
      (fun a b c => cmpMaps_le_trans) l
  cases dir with
  | none => exact h []
  | some es => exact h (collectMaps es)

theorem collectMaps_mem :
    ∀ {es : List (Option DirEntry)} {n : String}, n ∈ collectMaps es →
      strEndsWith n ".json" = true ∧
        ∃ e : DirEntry, some e ∈ es ∧ e.name = some n ∧ e.fileType = some FsKind.file := by
  intro es
  induction es with
  | nil => intro n h; exact absurd h (by simp [collectMaps])
  | cons oe es ih =>
    intro n h
    have hstep : ∀ hm : n ∈ collectMaps es,
        strEndsWith n ".json" = true ∧
          ∃ e : DirEntry, some e ∈ oe :: es ∧ e.name = some n ∧
            e.fileType = some FsKind.file := by
      intro hm
      obtain ⟨h1, e, he, hn, hf⟩ := ih hm
      exact ⟨h1, e, List.mem_cons_of_mem _ he, hn, hf⟩
    cases oe with
    | none => exact hstep (by rw [collectMaps] at h; exact h)
    | some e =>
      rw [collectMaps] at h
      cases hft : e.fileType with
      | none => simp only [hft] at h; exact hstep h
      | some k =>
        simp only [hft] at h
        by_cases hk : k = FsKind.file
        · rw [if_pos hk] at h
          cases hn : e.name with
          | none => simp only [hn] at h; exact hstep h
          | some nm =>
            simp only [hn] at h
            by_cases hj : strEndsWith nm ".json"
            · rw [if_pos hj, List.mem_cons] at h
              rcases h with rfl | h
              · exact ⟨hj, e, List.mem_cons_self _ _, hn, by rw [hft, hk]⟩
              · exact hstep h
            · rw [if_neg hj] at h
              exact hstep h
        · rw [if_neg hk] at h
          exact hstep h

/-- C9: every filename in the listing ends in `".json"` and comes from a
directory entry that is a regular file with that UTF-8 name; entries that are
not regular files, are unreadable, or lack the suffix never contribute, and a
failed directory read yields the empty listing. -/
theorem claim_C9 :
    (∀ (es : List (Option DirEntry)) (n : String), n ∈ list_maps (some es) →
        strEndsWith n ".json" = true ∧
          ∃ e : DirEntry, some e ∈ es ∧ e.name = some n ∧
            e.fileType = some FsKind.file) ∧
      list_maps none = [] := by
  refine ⟨?_, rfl⟩
  intro es n h
  rw [list_maps] at h
  rw [(sortByCmp_perm cmpMaps (collectMaps es)).mem_iff] at h
  exact collectMaps_mem h

/-- Directory entry for `tile_2.json`. -/
def entryTile2 : Option DirEntry := some { fileType := some FsKind.file, name := some "tile_2.json" }

/-- Directory entry for `tile_10.json`. -/
def entryTile10 : Option DirEntry := some { fileType := some FsKind.file, name := some "tile_10.json" }

/-- Directory entry for `overview.json`. -/
def entryOverview : Option DirEntry := some { fileType := some FsKind.file, name := some "overview.json" }

set_option maxRecDepth 4000 in
/-- C3 fails on the code: `extract_num` splits on underscores and parses the
second token with `parse::<u32>`, but for `tile_2.json` that token is
`"2.json"`, which is not a pure digit string, so extraction yields `None` for
all three names and the comparator falls back to lexicographic order.  For a
directory holding exactly `tile_2.json`, `tile_10.json` and `overview.json`
(in any read order) the listing is
`["overview.json", "tile_10.json", "tile_2.json"]`, not the numeric order the
spec scenario states — the code's own `Sort by extracted number` comment
shows the numeric order was the intent. -/
theorem claim_C3 :
    ∀ es ∈ [[entryTile2, entryTile10, entryOverview], [entryTile2, entryOverview, entryTile10],
        [entryTile10, entryTile2, entryOverview], [entryTile10, entryOverview, entryTile2],
        [entryOverview, entryTile2, entryTile10], [entryOverview, entryTile10, entryTile2]],
      list_maps (some es) = ["overview.json", "tile_10.json", "tile_2.json"] := by
  decide

set_option maxRecDepth 4000 in
theorem claim_C3_witness :
    [entryTile2, entryTile10, entryOverview] ∈
        [[entryTile2, entryTile10, entryOverview], [entryTile2, entryOverview, entryTile10],
          [entryTile10, entryTile2, entryOverview], [entryTile10, entryOverview, entryTile2],
          [entryOverview, entryTile2, entryTile10], [entryOverview, entryTile10, entryTile2]] ∧
      list_maps (some [entryTile2, entryTile10, entryOverview]) =
        ["overview.json", "tile_10.json", "tile_2.json"] :=
  ⟨by decide, claim_C3 [entryTile2, entryTile10, entryOverview] (by decide)⟩

theorem claim_C9_witness :
    "overview.json" ∈ list_maps (some [entryOverview]) ∧
      (strEndsWith "overview.json" ".json" = true ∧
        ∃ e : DirEntry, some e ∈ [entryOverview] ∧ e.name = some "overview.json" ∧
          e.fileType = some FsKind.file) :=
  ⟨by decide, claim_C9.1 [entryOverview] "overview.json" (by decide)⟩
